import Mathlib

/-!
Shallow embedding of the variable-expansion core of
`vendor/github.com/urso/ucfg/variables.go` (lexer, parser, evaluator,
reference resolver), together with theorems checking the specification
claims against it.

Strings are modelled at the character level (`List Char`); this is faithful
for the Go code because all delimiter characters scanned for (`$`, `:`,
`{`, `}`) are single-byte ASCII, and Go byte-indexing at those positions
coincides with character indexing on the inputs considered.
-/

namespace Ucfg

/-- Evaluation/parse errors. In Go these are plain `error` values built with
`errors.New`, `fmt.Errorf` or the sentinel `ErrMissing`; they are modelled
as a closed inductive so that results are decidable. -/
inductive UErr where
  /-- the sentinel `ErrMissing` -/
  | errMissing
  /-- `errors.New(msg)` with the given message -/
  | errNew (msg : String)
  /-- `fmt.Errorf("can not resolve reference: %v", r.Path)` -/
  | errUnresolvedRef (path : List String)
  /-- a `value.toString` conversion failure -/
  | errConversion
  /-- `fmt.Errorf("Unknown expansion op: %v", e.op)` -/
  | errUnknownOp (op : String)
deriving DecidableEq, Repr

/-- Modelled from the spec: a `Value` is the opaque typed result of a lookup
(§6); it supports `toString` which may fail with a conversion failure for
non-scalar values. `newString` (used for resolver-callback results in
`reference.resolve`) produces a `vStr`. -/
inductive CValue where
  | vStr (s : String)
  /-- a value whose string conversion fails (e.g. a non-scalar) -/
  | vOpaque
deriving DecidableEq, Repr

/-- Modelled from the spec: `value.toString(opts)` — string values convert to
themselves, non-scalar values fail with a conversion failure (§6). -/
def CValue.toStr : CValue → Except UErr String
  | .vStr s => .ok s
  | .vOpaque => .error .errConversion

/-- Modelled from the spec: a configuration node supports
`GetValue(path, opts) -> value or failure` and `Parent() -> node or absent`
(§6). The lookup result distinguishes a present value, a present key whose
value is the absent marker (`.ok none`), and a lookup failure. -/
inductive Config where
  | node (lookup : List String → Except UErr (Option CValue)) (parent : Option Config)

/-- `GetValue` of the node (spec §6). -/
def Config.lookup : Config → List String → Except UErr (Option CValue)
  | .node f _, p => f p

/-- `Parent()` of the node (spec §6). -/
def Config.parent : Config → Option Config
  | .node _ p => p

/-- The loop body of Go `cfgRoot` on a non-nil node: follow `Parent()` links
until a node with no parent is reached. -/
def Config.root : Config → Config
  | .node f none => .node f none
  | .node _ (some p) => p.root

/-- Go `cfgRoot`: `nil` in, `nil` out; otherwise walk to the top ancestor. -/
def cfgRoot : Option Config → Option Config
  | none => none
  | some c => some c.root

/-- A resolver callback: `func(key string) (string, error)` (spec §6). -/
abbrev Resolver : Type := String → Except UErr String

/-- The fields of Go `options` that `resolve` reads: the fallback-root list
`env` (searched last-entry-first) and the resolver-callback list. -/
structure Options where
  env : List Config
  resolvers : List Resolver

/-- Modelled from the spec: `cfgPath.String()`, the dotted string form of a
path handed to resolver callbacks (§4.4 step 3). -/
def pathString (p : List String) : String := String.intercalate "." p

/-- The first position at which `sep` occurs as a contiguous subsequence of
`s`, if any. -/
def findSeq (sep s : List Char) : Option Nat :=
  (List.range (s.length + 1)).find? (fun i => sep.isPrefixOf (s.drop i))

/-- Split `s` on every occurrence of the (non-empty) separator `sep`; with
an empty separator or no occurrence the whole text is a single segment.
The structural `fuel` argument only bounds the recursion: every recursive
call strictly shortens `s`, so any fuel exceeding `s.length` yields the
same result and the zero-fuel branch is unreachable from `splitList`. -/
def splitListF (fuel : Nat) (sep s : List Char) : List (List Char) :=
  match fuel with
  | 0 => [s]
  | fuel + 1 =>
    if sep.isEmpty then [s]
    else if s.isEmpty then [s]
    else
      match findSeq sep s with
      | none => [s]
      | some i => s.take i :: splitListF fuel sep (s.drop (i + sep.length))

/-- `splitListF` with always-sufficient fuel. -/
def splitList (sep s : List Char) : List (List Char) :=
  splitListF (s.length + 1) sep s

/-- Modelled from the spec: `parsePath(path, pathSep)` splits the literal
path text on the configured separator into path segments (§3, §4.2). -/
def parsePath (s sep : String) : List String :=
  (splitList sep.data s.data).map (⟨·⟩)

/-- Outcome of the lookup loop in `reference.resolve`: either the loop
`return`s a present value, or it `break`s carrying the current `err`
(`none` when the loop broke because lookup succeeded with a nil value). -/
inductive ResolveStep where
  | found (v : CValue)
  | stop (err : Option UErr)
deriving Repr

/-- The `for` loop of `reference.resolve`: look the path up in the root
ancestor of the current node; a present value returns; a nil value breaks
with no error; a lookup failure pops the next fallback root — the Go code
pops `env[len(env)-1]`, so the loop is modelled on the reversed `env` list
(head = most recently supplied root) — or, when none are left, breaks
keeping the failure. Every tried root is re-rooted via `cfgRoot`. -/
def resolveChain (path : List String) (cfg : Config) (stack : List Config) :
    ResolveStep :=
  match cfg.root.lookup path, stack with
  | .ok (some v), _ => .found v
  | .ok none, _ => .stop none
  | .error e, [] => .stop (some e)
  | .error _, c :: rest => resolveChain path c rest

/-- The callback section of `reference.resolve`: resolvers are tried from
the last registered to the first (the Go loop runs `i` downwards, so this
is modelled on the reversed resolver list); the first success returns a
string value built with `newString`; each failure overwrites `err`, and
when all fail the error of the last tried (first registered) resolver is
returned. With no resolvers the incoming error is returned unchanged. -/
def tryResolvers : List Resolver → String → Option UErr → Option CValue × Option UErr
  | [], _, e => (none, e)
  | r :: rest, key, _ =>
    match r key with
    | .ok s => (some (.vStr s), none)
    | .error e2 => tryResolvers rest key (some e2)

/-- `reference.resolve`: Go returns the pair `(value, error)`. The
re-rooting `cfg = cfgRoot(cfg)` happens inside the loop (in
`resolveChain`); a nil starting node makes the first iteration fail with
`ErrMissing` before any fallback root or callback is consulted. -/
def resolve (path : List String) (cfg : Option Config) (opts : Options) :
    Option CValue × Option UErr :=
  match cfg with
  | none => (none, some .errMissing)
  | some c0 =>
    match resolveChain path c0 opts.env.reverse with
    | .found v => (some v, none)
    | .stop e => tryResolvers opts.resolvers.reverse (pathString path) e

/-- `reference.eval`: resolve, fail on a resolution error, fail with the
"can not resolve reference" error when no value was produced, otherwise
convert the value to a string. -/
def referenceEval (path : List String) (cfg : Option Config) (opts : Options) :
    Except UErr String :=
  match resolve path cfg opts with
  | (_, some e) => .error e
  | (none, none) => .error (.errUnresolvedRef path)
  | (some v, none) => v.toStr

/-- The operator constants `opDefault`, `opAlternative`, `opError`. -/
def opDefault : String := ":"

/-- `opAlternative = ":+"`. -/
def opAlternative : String := ":+"

/-- `opError = ":?"`. -/
def opError : String := ":?"

/-- The closed set of `varEvaler` implementations: `constExp`, `reference`
(holding its already-split `cfgPath`), `splice`, and `expansion` (whose
`right` is the nil pointer exactly when built by the no-operator branch of
`finalize`). -/
inductive VarExp where
  | constExp (s : String)
  | reference (path : List String)
  | splice (pieces : List VarExp)
  | expansion (left : VarExp) (right : Option VarExp) (pathSep op : String)

mutual

/-- The `eval` methods of the four `varEvaler` implementations, dispatching
on the node. The `expansion.eval` switch is translated branch by branch. -/
def eval (e : VarExp) (cfg : Option Config) (opts : Options) : Except UErr String :=
  match e with
  | .constExp s => .ok s
  | .reference p => referenceEval p cfg opts
  | .splice ps => evalPieces ps cfg opts
  | .expansion l r pathSep op =>
    if op = opDefault then
      match eval l cfg opts with
      | .error _ => evalOpt r cfg opts
      | .ok path =>
        if path = "" then evalOpt r cfg opts
        else
          match referenceEval (parsePath path pathSep) cfg opts with
          | .error _ => evalOpt r cfg opts
          | .ok v => if v = "" then evalOpt r cfg opts else .ok v
    else if op = opAlternative then
      match eval l cfg opts with
      | .error _ => .ok ""
      | .ok path =>
        if path = "" then .ok ""
        else
          match resolve (parsePath path pathSep) cfg opts with
          | (_, some _) => .ok ""
          | (none, none) => .ok ""
          | (some _, none) => evalOpt r cfg opts
    else if op = opError then
      -- the guarded success path: left evaluates non-empty and the
      -- reference built from it evaluates non-empty
      match
        (match eval l cfg opts with
         | .error _ => none
         | .ok path =>
           if path = "" then none
           else
             match referenceEval (parsePath path pathSep) cfg opts with
             | .error _ => none
             | .ok str => if str = "" then none else some str) with
      | some str => .ok str
      | none =>
        match evalOpt r cfg opts with
        | .error e2 => .error e2
        | .ok errStr => .error (.errNew errStr)
    else if op = "" then
      match eval l cfg opts with
      | .error e2 => .error e2
      | .ok path => referenceEval (parsePath path pathSep) cfg opts
    else .error (.errUnknownOp op)

/-- Evaluation of an optional right-hand node. The Go code dereferences
`e.right` directly; a nil `right` (which the parser produces only for the
no-operator case, never evaluated there) is modelled as an error in place
of the nil dereference. -/
def evalOpt (r : Option VarExp) (cfg : Option Config) (opts : Options) :
    Except UErr String :=
  match r with
  | none => .error (.errNew "nil evaler")
  | some e => eval e cfg opts

/-- The loop body of `splice.eval`: evaluate each piece in order, failing on
the first failure, concatenating the results. -/
def evalPieces (ps : List VarExp) (cfg : Option Config) (opts : Options) :
    Except UErr String :=
  match ps with
  | [] => .ok ""
  | p :: rest =>
    match eval p cfg opts with
    | .error e2 => .error e2
    | .ok s =>
      match evalPieces rest cfg opts with
      | .error e2 => .error e2
      | .ok tail => .ok (s ++ tail)

end

/-- `tokenType`. -/
inductive TokenType where
  | tokOpen
  | tokClose
  | tokSep
  | tokString
deriving DecidableEq, Repr

/-- `token`. -/
structure Token where
  typ : TokenType
  val : String
deriving DecidableEq, Repr

/-- `openToken = token{tokOpen, "${"}`. -/
def openToken : Token := ⟨.tokOpen, "$\x7b"⟩

/-- `closeToken = token{tokClose, "}"}`. -/
def closeToken : Token := ⟨.tokClose, "\x7d"⟩

/-- `sepDefToken`. -/
def sepDefToken : Token := ⟨.tokSep, opDefault⟩

/-- `sepAltToken`. -/
def sepAltToken : Token := ⟨.tokSep, opAlternative⟩

/-- `sepErrToken`. -/
def sepErrToken : Token := ⟨.tokSep, opError⟩

/-- `strToken` in the lexer (also the deferred final flush): emit a string
token only when the text is non-empty. -/
def strTok (s : List Char) : List Token :=
  if s.isEmpty then [] else [⟨.tokString, ⟨s⟩⟩]

/-- The trigger characters `strings.IndexAny` scans for: only `$` while no
`${` is unmatched (`varcount == 0`), else `$`, `:`, `}`. -/
def triggers (varcount : Nat) : List Char :=
  if varcount = 0 then ['$'] else ['$', ':', '\x7d']

/-- The scan loop of `lexer`, on the state `(content, off, varcount)`.
Each branch mirrors the Go `switch content[idx]`:
`:` emits the pending literal and a separator token (consuming a following
`+` or `?`); `}` emits the pending literal and a close token, decrementing
`varcount`; `$` followed by `$` deletes the second `$` from `content` and
rescans from the same offset; `$` followed by `{` emits the pending literal
and an open token; a `$` followed by any other character falls through the
switch, discarding the pending text and the `$` without emitting a token.
A `$` or `:` as the final character stops the scan, flushing all of
`content` as a literal (the deferred flush), as does running out of trigger
characters. `varcount` only decrements when positive (`}` is a trigger only
then), so it is modelled as a `Nat`. -/
def lexLoop (content : List Char) (off : Nat) (varcount : Nat) : List Token :=
  if _hlen : content.length = 0 then []
  else
    match (content.drop off).findIdx? (fun c => (triggers varcount).contains c) with
    | none => strTok content
    | some i =>
      let idx := i + off
      let off1 := idx + 1
      let c := content.getD idx ' '
      if c = ':' then
        if _h2 : content.length ≤ off1 then strTok content
        else
          let c2 := content.getD off1 ' '
          if c2 = '+' then
            strTok (content.take idx) ++ sepAltToken ::
              lexLoop (content.drop (off1 + 1)) 0 varcount
          else if c2 = '?' then
            strTok (content.take idx) ++ sepErrToken ::
              lexLoop (content.drop (off1 + 1)) 0 varcount
          else
            strTok (content.take idx) ++ sepDefToken ::
              lexLoop (content.drop off1) 0 varcount
      else if c = '\x7d' then
        strTok (content.take idx) ++ closeToken ::
          lexLoop (content.drop off1) 0 (varcount - 1)
      else if c = '$' then
        if _h3 : content.length ≤ off1 then strTok content
        else
          let c2 := content.getD off1 ' '
          if c2 = '$' then
            lexLoop (content.take off1 ++ content.drop (off1 + 1)) off1 varcount
          else if c2 = '\x7b' then
            strTok (content.take idx) ++ openToken ::
              lexLoop (content.drop (off1 + 1)) 0 (varcount + 1)
          else
            lexLoop (content.drop off1) 0 varcount
      else
        lexLoop (content.drop off1) 0 varcount
termination_by content.length
decreasing_by
  all_goals simp [List.length_take, List.length_append, List.length_drop]
  all_goals omega

/-- `lexer`: the Go function returns a token channel and an error channel;
nothing is ever sent on the error channel, so the lexer is modelled as the
token sequence alone, starting from offset 0 at nesting depth 0. -/
def lexer (s : String) : List Token := lexLoop s.data 0 0

/-- The parser-state side constants `stLeft = 0`, `stRight = 1` (the index
into `pieces`). -/
inductive Side where
  | stLeft
  | stRight
deriving DecidableEq, Repr

/-- `parseState`: the current side, whether the frame denotes an actual
`${...}` expansion, the operator recorded by a separator token, and the two
piece sequences (`pieces[stLeft]`, `pieces[stRight]`). -/
structure ParseState where
  st : Side
  isvar : Bool
  op : String
  left : List VarExp
  right : List VarExp

/-- `st.pieces[st.st] = append(st.pieces[st.st], piece)`. -/
def appendPiece (ps : ParseState) (e : VarExp) : ParseState :=
  match ps.st with
  | .stLeft => { ps with left := ps.left ++ [e] }
  | .stRight => { ps with right := ps.right ++ [e] }

/-- The `extract` closure in `finalize`: collapse a piece sequence, an empty
one to `constExp("")`, a singleton to its piece, a longer one to a
`splice`. -/
def extract : List VarExp → VarExp
  | [] => .constExp ""
  | [p] => p
  | ps => .splice ps

/-- `parseState.finalize`: reject non-variable frames and frames with an
empty left side; with no separator seen, a single constant-text piece
becomes a `reference` on the split path and anything else becomes a
no-operator `expansion` wrapping all pieces in a `splice` (the
`len(pieces) == 0` return of `constExp("")` inside this branch is dead
code, kept for fidelity); with a separator seen, both sides are collapsed
with `extract` into an `expansion` carrying the recorded operator. -/
def finalize (ps : ParseState) (pathSep : String) : Except UErr VarExp :=
  if ps.isvar = false then
    .error (.errNew "fatal: processing non-variable state")
  else if ps.left.isEmpty then
    .error (.errNew "empty expansion")
  else if ps.st = .stLeft then
    match ps.left with
    | [] => .ok (.constExp "")
    | [.constExp str] => .ok (.reference (parsePath str pathSep))
    | pieces => .ok (.expansion (.splice pieces) none pathSep "")
  else
    .ok (.expansion (extract ps.left) (some (extract ps.right)) pathSep ps.op)

/-- One step of the parser loop of `parseVarExp` on one token. The stack is
modelled with its top at the head (Go indexes `stack[len(stack)-1]`); the
empty-stack cases are unreachable from `parseVarExp` (Go would crash on an
out-of-range index only after a `finalize` that cannot succeed on the root
frame) and are modelled as the fatal parse error. -/
def parseTok (stack : List ParseState) (tok : Token) (pathSep : String) :
    Except UErr (List ParseState) :=
  match tok.typ with
  | .tokOpen => .ok (⟨.stLeft, true, "", [], []⟩ :: stack)
  | .tokClose =>
    match stack with
    | [] => .error (.errNew "fatal: expansion parse state empty")
    | top :: rest =>
      match finalize top pathSep with
      | .error e => .error e
      | .ok piece =>
        match rest with
        | [] => .error (.errNew "fatal: expansion parse state empty")
        | st :: rest2 => .ok (appendPiece st piece :: rest2)
  | .tokSep =>
    match stack with
    | [] => .error (.errNew "fatal: expansion parse state empty")
    | st :: rest =>
      if st.isvar = false then
        .error (.errNew "default separator not within expansion")
      else if st.st = .stRight then
        .error (.errNew "unexpected :")
      else
        .ok ({ st with st := .stRight, op := tok.val } :: rest)
  | .tokString =>
    match stack with
    | [] => .error (.errNew "fatal: expansion parse state empty")
    | st :: rest => .ok (appendPiece st (.constExp tok.val) :: rest)

/-- The token loop of `parseVarExp` followed by its final-state validation:
a stack deeper than the root frame means a `${` was never closed; the root
frame's left sequence is returned directly when it has exactly one piece
and wrapped in a `splice` otherwise (including the zero-piece case). -/
def parseLoop (toks : List Token) (stack : List ParseState) (pathSep : String) :
    Except UErr VarExp :=
  match toks with
  | [] =>
    if stack.length > 1 then .error (.errNew "missing \x7d")
    else
      match stack with
      | [] => .error (.errNew "fatal: expansion parse state empty")
      | st :: _ =>
        match st.left with
        | [r] => .ok r
        | result => .ok (.splice result)
  | t :: ts =>
    match parseTok stack t pathSep with
    | .error e => .error e
    | .ok stack2 => parseLoop ts stack2 pathSep

/-- `parseVarExp`: run the token loop from a stack holding the single root
frame (`st: stLeft`, not a variable). -/
def parseVarExp (toks : List Token) (pathSep : String) : Except UErr VarExp :=
  parseLoop toks [⟨.stLeft, false, "", [], []⟩] pathSep

/-- `parseSplice`: lex then parse. The lexer's error channel is never
written to, so the lexer-error check after parsing always passes and the
parser result is returned as is. -/
def parseSplice (s : String) (pathSep : String) : Except UErr VarExp :=
  parseVarExp (lexer s) pathSep

/-- Modelled from the spec: the public entry point
`expand(input, pathSeparator, context) -> string or failure`, composing
lex → parse → evaluate (§6); the lex and parse stages are `parseSplice`
from the source. -/
def expand (input pathSep : String) (cfg : Option Config) (opts : Options) :
    Except UErr String :=
  match parseSplice input pathSep with
  | .error e => .error e
  | .ok tree => eval tree cfg opts

/-! Concrete configuration trees and option bundles used to evaluate the
specification's examples. -/

/-- A configuration tree in which every lookup fails (every key absent). -/
def cfgEmpty : Config := .node (fun _ => .error .errMissing) none

/-- A tree holding the single string entry `present = "x"`. -/
def cfgPresent : Config :=
  .node (fun p => if p = ["present"] then .ok (some (.vStr "x")) else .error .errMissing) none

/-- A tree in which `present` holds a value whose string conversion fails. -/
def cfgOpaque : Config :=
  .node (fun p => if p = ["present"] then .ok (some .vOpaque) else .error .errMissing) none

/-- No fallback roots and no resolver callbacks. -/
def opts0 : Options := ⟨[], []⟩

mutual

/-- Every `reference` node in the tree carries a path split from some
non-empty literal left side. -/
def GoodRefs (sep : String) : VarExp → Prop
  | .constExp _ => True
  | .reference p => ∃ s, s ≠ "" ∧ p = parsePath s sep
  | .splice ps => GoodRefsList sep ps
  | .expansion l r _ _ => GoodRefs sep l ∧ GoodRefsOpt sep r

/-- `GoodRefs` on every element. -/
def GoodRefsList (sep : String) : List VarExp → Prop
  | [] => True
  | p :: ps => GoodRefs sep p ∧ GoodRefsList sep ps

/-- `GoodRefs` on a present node. -/
def GoodRefsOpt (sep : String) : Option VarExp → Prop
  | none => True
  | some e => GoodRefs sep e

end

/-- The invariant the parser maintains for every piece stored in a parse
frame: its references come from non-empty literals, and a bare literal
piece is itself non-empty (string tokens are never empty). -/
def GoodPiece (sep : String) (e : VarExp) : Prop :=
  GoodRefs sep e ∧ ∀ s, e = .constExp s → s ≠ ""

/-- The parser-stack invariant: every piece of every frame is good. -/
def GoodStack (sep : String) (stack : List ParseState) : Prop :=
  ∀ fr ∈ stack, (∀ e ∈ fr.left, GoodPiece sep e) ∧ ∀ e ∈ fr.right, GoodPiece sep e

/-! Helper lemmas: concrete lexer runs and symbolic one-step facts about
the scan loop. -/

/-- The dollar character triggers the scan at every nesting depth. -/
theorem dollar_mem_triggers (vc : Nat) : '$' ∈ triggers vc := by
  unfold triggers; split <;> simp

/-- The scan finds the first trigger character after a trigger-free
prefix. -/
theorem findIdx_trigger (vc : Nat) (pre : List Char) (c : Char) (rest : List Char)
    (hpre : ∀ x ∈ pre, x ∉ triggers vc) (hc : c ∈ triggers vc) :
    (pre ++ c :: rest).findIdx? (fun x => (triggers vc).contains x) = some pre.length := by
  rw [List.findIdx?_append]
  have h1 : pre.findIdx? (fun x => (triggers vc).contains x) = none := by
    rw [List.findIdx?_eq_none_iff]
    intro x hx
    simpa using hpre x hx
  have h2 : (c :: rest).findIdx? (fun x => (triggers vc).contains x) = some 0 := by
    rw [List.findIdx?_cons]
    simp [hc]
  simp only [h1, h2, Option.none_or, Option.map_some]
  simp

/-- One scan step on a `$` whose successor is neither `$` nor `{`: the Go
switch has no matching case for the successor, so the loop continues with
`content = content[off:]` — the pending literal text and the `$` are
discarded without emitting a token. -/
theorem lex_discard_step (vc : Nat) (pre : List Char) (c : Char) (post : List Char)
    (hpre : ∀ x ∈ pre, x ∉ triggers vc) (hc1 : c ≠ '$') (hc2 : c ≠ '\x7b') :
    lexLoop (pre ++ '$' :: c :: post) 0 vc = lexLoop (c :: post) 0 vc := by
  conv_lhs => rw [lexLoop.eq_def]
  have hlen : ¬ ((pre ++ '$' :: c :: post).length = 0) := by simp
  have hfind : ((pre ++ '$' :: c :: post).drop 0).findIdx?
      (fun x => (triggers vc).contains x) = some pre.length := by
    rw [List.drop_zero]
    exact findIdx_trigger vc pre '$' (c :: post) hpre (dollar_mem_triggers vc)
  rw [dif_neg hlen, hfind]
  have hgd : (pre ++ '$' :: c :: post).getD (pre.length + 0) ' ' = '$' := by
    rw [List.getD_eq_getElem?_getD, Nat.add_zero, List.getElem?_append_right (Nat.le_refl _)]
    simp
  have hlen2 : ¬ ((pre ++ '$' :: c :: post).length ≤ pre.length + 0 + 1) := by
    simp [List.length_append]
  have hgd2 : (pre ++ '$' :: c :: post).getD (pre.length + 0 + 1) ' ' = c := by
    have hsplit : pre ++ '$' :: c :: post = (pre ++ ['$']) ++ c :: post := by simp
    rw [hsplit, List.getD_eq_getElem?_getD, Nat.add_zero]
    rw [show pre.length + 1 = (pre ++ ['$']).length by simp]
    rw [List.getElem?_append_right (Nat.le_refl _)]
    simp
  have hdrop : (pre ++ '$' :: c :: post).drop (pre.length + 0 + 1) = c :: post := by
    have hsplit : pre ++ '$' :: c :: post = (pre ++ ['$']) ++ c :: post := by simp
    rw [hsplit, Nat.add_zero, show pre.length + 1 = (pre ++ ['$']).length by simp]
    exact List.drop_left _ _
  simp only [hgd, hgd2, hdrop, dif_neg hlen2]
  simp [hc1, hc2]

/-- One scan step on an escaped `$$` after trigger-free text: the second
`$` is deleted from the remaining text and scanning continues from the
position after the kept `$`, with no token emitted. -/
theorem lex_escape_step (vc : Nat) (pre : List Char) (rest : List Char)
    (hpre : ∀ x ∈ pre, x ∉ triggers vc) :
    lexLoop (pre ++ '$' :: '$' :: rest) 0 vc =
      lexLoop (pre ++ '$' :: rest) (pre.length + 1) vc := by
  conv_lhs => rw [lexLoop.eq_def]
  have hlen : ¬ ((pre ++ '$' :: '$' :: rest).length = 0) := by simp
  have hfind : ((pre ++ '$' :: '$' :: rest).drop 0).findIdx?
      (fun x => (triggers vc).contains x) = some pre.length := by
    rw [List.drop_zero]
    exact findIdx_trigger vc pre '$' ('$' :: rest) hpre (dollar_mem_triggers vc)
  rw [dif_neg hlen, hfind]
  have hgd : (pre ++ '$' :: '$' :: rest).getD (pre.length + 0) ' ' = '$' := by
    rw [List.getD_eq_getElem?_getD, Nat.add_zero, List.getElem?_append_right (Nat.le_refl _)]
    simp
  have hlen2 : ¬ ((pre ++ '$' :: '$' :: rest).length ≤ pre.length + 0 + 1) := by
    simp [List.length_append]
  have hgd2 : (pre ++ '$' :: '$' :: rest).getD (pre.length + 0 + 1) ' ' = '$' := by
    have hsplit : pre ++ '$' :: '$' :: rest = (pre ++ ['$']) ++ '$' :: rest := by simp
    rw [hsplit, List.getD_eq_getElem?_getD, Nat.add_zero]
    rw [show pre.length + 1 = (pre ++ ['$']).length by simp]
    rw [List.getElem?_append_right (Nat.le_refl _)]
    simp
  have htake : (pre ++ '$' :: '$' :: rest).take (pre.length + 0 + 1) = pre ++ ['$'] := by
    have hsplit : pre ++ '$' :: '$' :: rest = (pre ++ ['$']) ++ '$' :: rest := by simp
    rw [hsplit, Nat.add_zero, show pre.length + 1 = (pre ++ ['$']).length by simp]
    exact List.take_left _ _
  have hdrop : (pre ++ '$' :: '$' :: rest).drop (pre.length + 0 + 1 + 1) = rest := by
    have hsplit : pre ++ '$' :: '$' :: rest = (pre ++ ['$', '$']) ++ rest := by simp
    rw [hsplit, Nat.add_zero, show pre.length + 1 + 1 = (pre ++ ['$', '$']).length by simp]
    exact List.drop_left _ _
  simp only [hgd, hgd2, htake, hdrop, dif_neg hlen2]
  simp

/-- Token sequence of `"${missing:default}"`. -/
theorem lexer_missing_default : lexer "$\x7bmissing:default\x7d" =
    [openToken, ⟨.tokString, "missing"⟩, sepDefToken, ⟨.tokString, "default"⟩, closeToken] := by
  simp [lexer, lexLoop, triggers, strTok, openToken, closeToken, sepDefToken, sepAltToken,
    sepErrToken]

/-- Token sequence of `"${missing:?boom}"`. -/
theorem lexer_missing_boom : lexer "$\x7bmissing:?boom\x7d" =
    [openToken, ⟨.tokString, "missing"⟩, sepErrToken, ⟨.tokString, "boom"⟩, closeToken] := by
  simp [lexer, lexLoop, triggers, strTok, openToken, closeToken, sepDefToken, sepAltToken,
    sepErrToken]

/-- Token sequence of `"${present:?boom}"`. -/
theorem lexer_present_boom : lexer "$\x7bpresent:?boom\x7d" =
    [openToken, ⟨.tokString, "present"⟩, sepErrToken, ⟨.tokString, "boom"⟩, closeToken] := by
  simp [lexer, lexLoop, triggers, strTok, openToken, closeToken, sepDefToken, sepAltToken,
    sepErrToken]

/-- Token sequence of `"${present:+alt}"`. -/
theorem lexer_present_alt : lexer "$\x7bpresent:+alt\x7d" =
    [openToken, ⟨.tokString, "present"⟩, sepAltToken, ⟨.tokString, "alt"⟩, closeToken] := by
  simp [lexer, lexLoop, triggers, strTok, openToken, closeToken, sepDefToken, sepAltToken,
    sepErrToken]

/-- Token sequence of `"a$b"`: the literal `a` and the `$` are discarded. -/
theorem lexer_adollarb : lexer "a$b" = [⟨.tokString, "b"⟩] := by
  simp [lexer, lexLoop, triggers, strTok]

/-- Token sequence of `"$$"`: a single literal dollar. -/
theorem lexer_dd : lexer "$$" = [⟨.tokString, "$"⟩] := by
  simp [lexer, lexLoop, triggers, strTok]

/-- Token sequence of `"$${a}"`: the escaped dollar suppresses the open
token, leaving a single literal. -/
theorem lexer_dda : lexer "$$\x7ba\x7d" = [⟨.tokString, "$\x7ba\x7d"⟩] := by
  simp [lexer, lexLoop, triggers, strTok]

/-- Token sequence of `"${a}"`. -/
theorem lexer_brace_a : lexer "$\x7ba\x7d" = [openToken, ⟨.tokString, "a"⟩, closeToken] := by
  simp [lexer, lexLoop, triggers, strTok, openToken, closeToken]

/-- Token sequence of `"a}"`: a close brace at depth zero is not a trigger
character, so the whole input is one literal token. -/
theorem lexer_abrace : lexer "a\x7d" = [⟨.tokString, "a\x7d"⟩] := by
  simp [lexer, lexLoop, triggers, strTok]

/-- Token sequence of `"${}"`. -/
theorem lexer_open_close : lexer "$\x7b\x7d" = [openToken, closeToken] := by
  simp [lexer, lexLoop, triggers, strTok, openToken, closeToken]

/-- Token sequence of `"${:}"`. -/
theorem lexer_open_sep_close : lexer "$\x7b:\x7d" = [openToken, sepDefToken, closeToken] := by
  simp [lexer, lexLoop, triggers, strTok, openToken, closeToken, sepDefToken]

/-- Token sequence of `"${${a}}"`. -/
theorem lexer_nested : lexer "$\x7b$\x7ba\x7d\x7d" =
    [openToken, openToken, ⟨.tokString, "a"⟩, closeToken, closeToken] := by
  simp [lexer, lexLoop, triggers, strTok, openToken, closeToken]

/-- Token sequence of `"${x:d}"`. -/
theorem lexer_xd : lexer "$\x7bx:d\x7d" =
    [openToken, ⟨.tokString, "x"⟩, sepDefToken, ⟨.tokString, "d"⟩, closeToken] := by
  simp [lexer, lexLoop, triggers, strTok, openToken, closeToken, sepDefToken]

/-- Token sequence of `"a"`. -/
theorem lexer_a : lexer "a" = [⟨.tokString, "a"⟩] := by
  simp [lexer, lexLoop, triggers, strTok]

/-- C1: `resolve` tries the root ancestor of the context node first (a
present value there wins regardless of fallback roots and resolvers); on a
lookup failure the most recently supplied fallback root is popped and
searched re-rooted; with no roots left the resolver callbacks are
consulted in reverse registration order on the path's string form; and a
key absent from the primary tree but present in a fallback root resolves
to the fallback root's value for every resolver list — the fallback root
beats the callbacks. -/
theorem resolve_precedence :
    (∀ (path : List String) (c : Config) (opts : Options) (v : CValue),
      c.root.lookup path = .ok (some v) →
      resolve path (some c) opts = (some v, none))
    ∧ (∀ (path : List String) (c e : Config) (env0 : List Config) (rs : List Resolver)
        (err : UErr),
        c.root.lookup path = .error err →
        resolve path (some c) ⟨env0 ++ [e], rs⟩ = resolve path (some e) ⟨env0, rs⟩)
    ∧ (∀ (path : List String) (c : Config) (rs : List Resolver) (err : UErr),
        c.root.lookup path = .error err →
        resolve path (some c) ⟨[], rs⟩ = tryResolvers rs.reverse (pathString path) (some err))
    ∧ (∀ (rs0 : List Resolver) (r : Resolver) (key s : String) (e0 : Option UErr),
        r key = .ok s →
        tryResolvers (rs0 ++ [r]).reverse key e0 = (some (.vStr s), none))
    ∧ (∀ (path : List String) (c e : Config) (rs : List Resolver) (err : UErr) (v : CValue),
        c.root.lookup path = .error err →
        e.root.lookup path = .ok (some v) →
        resolve path (some c) ⟨[e], rs⟩ = (some v, none)) := by
  refine ⟨?_, ?_, ?_, ?_, ?_⟩
  · intro path c opts v h
    simp [resolve, resolveChain, h]
  · intro path c e env0 rs err h
    simp [resolve, resolveChain, h, List.reverse_append]
  · intro path c rs err h
    simp [resolve, resolveChain, h]
  · intro rs0 r key s e0 h
    simp [tryResolvers, h, List.reverse_append]
  · intro path c e rs err v h he
    simp [resolve, resolveChain, h, he]

/-- Witness for C1: with `present` absent from the primary tree, held in a
fallback root, and answerable by a resolver callback, the fallback root's
value is returned. -/
theorem resolve_precedence_witness :
    resolve ["present"] (some cfgEmpty) ⟨[cfgPresent], [fun _ => .ok "cb"]⟩ =
      (some (.vStr "x"), none) :=
  resolve_precedence.2.2.2.2 ["present"] cfgEmpty cfgPresent [fun _ => .ok "cb"]
    .errMissing (.vStr "x") rfl rfl

/-- C2: evaluating a default-value (`":"`) expansion returns the right
side's evaluation whenever the left side fails or evaluates to the empty
string; otherwise the left string is split into a reference, whose failed
or empty evaluation again yields the right side's evaluation and whose
non-empty value is returned as is; concretely
`"${missing:default}"` evaluates to `"default"` over a tree with no
entries. -/
theorem default_op_eval :
    (∀ (l r : VarExp) (sep : String) (cfg : Option Config) (opts : Options),
      ((∃ e, eval l cfg opts = .error e) ∨ eval l cfg opts = .ok "" →
        eval (.expansion l (some r) sep opDefault) cfg opts = eval r cfg opts)
      ∧ (∀ p, eval l cfg opts = .ok p → p ≠ "" →
          ((∃ e, referenceEval (parsePath p sep) cfg opts = .error e) ∨
              referenceEval (parsePath p sep) cfg opts = .ok "" →
            eval (.expansion l (some r) sep opDefault) cfg opts = eval r cfg opts)
          ∧ (∀ v, referenceEval (parsePath p sep) cfg opts = .ok v → v ≠ "" →
              eval (.expansion l (some r) sep opDefault) cfg opts = .ok v)))
    ∧ expand "$\x7bmissing:default\x7d" "." (some cfgEmpty) opts0 = .ok "default" := by
  constructor
  · intro l r sep cfg opts
    constructor
    · rintro (⟨e, he⟩ | he) <;> simp [eval, he, evalOpt]
    · intro p hp hpne
      constructor
      · rintro (⟨e, he⟩ | he) <;> simp [eval, hp, hpne, he, evalOpt]
      · intro v hv hvne
        simp [eval, hp, hpne, hv, hvne]
  · unfold expand parseSplice
    rw [lexer_missing_default]
    rfl

/-- Witness for C2: a failing left side is masked and the default is
returned. -/
theorem default_op_eval_witness :
    eval (.expansion (.reference ["missing"]) (some (.constExp "d")) "." opDefault)
        (some cfgEmpty) opts0 =
      eval (.constExp "d") (some cfgEmpty) opts0 :=
  (default_op_eval.1 (.reference ["missing"]) (.constExp "d") "." (some cfgEmpty) opts0).1
    (Or.inl ⟨.errMissing, rfl⟩)

/-- C3: evaluating a `":?"` expansion returns the referenced value when the
left side evaluates to a non-empty string and the reference built from it
evaluates to a non-empty string (for every right side, so the message
branch cannot influence the result); in every other case the right side is
evaluated, its own failure propagates, and otherwise evaluation fails with
an error carrying exactly the right side's evaluated string; concretely
`"${missing:?boom}"` fails with message `"boom"` over an empty tree and
`"${present:?boom}"` evaluates to `"x"`. -/
theorem error_op_eval :
    (∀ (l r : VarExp) (sep : String) (cfg : Option Config) (opts : Options) (p v : String),
      eval l cfg opts = .ok p → p ≠ "" →
      referenceEval (parsePath p sep) cfg opts = .ok v → v ≠ "" →
      eval (.expansion l (some r) sep opError) cfg opts = .ok v)
    ∧ (∀ (l r : VarExp) (sep : String) (cfg : Option Config) (opts : Options),
        (¬ ∃ p v, eval l cfg opts = .ok p ∧ p ≠ "" ∧
            referenceEval (parsePath p sep) cfg opts = .ok v ∧ v ≠ "") →
        eval (.expansion l (some r) sep opError) cfg opts =
          match eval r cfg opts with
          | .error e => .error e
          | .ok msg => .error (.errNew msg))
    ∧ expand "$\x7bmissing:?boom\x7d" "." (some cfgEmpty) opts0 = .error (.errNew "boom")
    ∧ expand "$\x7bpresent:?boom\x7d" "." (some cfgPresent) opts0 = .ok "x" := by
  refine ⟨?_, ?_, ?_, ?_⟩
  · intro l r sep cfg opts p v hp hpne hv hvne
    simp [eval, hp, hpne, hv, hvne, opError, opDefault, opAlternative]
  · intro l r sep cfg opts hne
    cases heval : eval l cfg opts with
    | error e => simp [eval, heval, evalOpt, opError, opDefault, opAlternative]
    | ok p =>
      by_cases hp : p = ""
      · subst hp; simp [eval, heval, evalOpt, opError, opDefault, opAlternative]
      · cases href : referenceEval (parsePath p sep) cfg opts with
        | error e => simp [eval, heval, hp, href, evalOpt, opError, opDefault, opAlternative]
        | ok str =>
          by_cases hstr : str = ""
          · subst hstr
            simp [eval, heval, hp, href, evalOpt, opError, opDefault, opAlternative]
          · exact absurd ⟨p, str, heval, hp, href, hstr⟩ hne
  · unfold expand parseSplice
    rw [lexer_missing_boom]
    rfl
  · unfold expand parseSplice
    rw [lexer_present_boom]
    rfl

/-- Witness for C3: the success path returns the referenced value. -/
theorem error_op_eval_witness :
    eval (.expansion (.constExp "present") (some (.constExp "boom")) "." opError)
        (some cfgPresent) opts0 = .ok "x" :=
  error_op_eval.1 (.constExp "present") (.constExp "boom") "." (some cfgPresent) opts0
    "present" "x" rfl (by decide) rfl (by decide)

/-- C4: evaluating a `":+"` expansion yields the empty string with no
failure when the left side fails or is empty, and likewise when the
reference built from the left string fails to resolve or resolves to no
value; only when the referenced path resolves to a present value is the
right side evaluated and returned (only resolution is attempted, never
string conversion, as the `cfgOpaque` case shows: a value that cannot be
converted still selects the alternative); concretely `"${present:+alt}"`
evaluates to `"alt"` when `present` resolves and to `""` when absent. -/
theorem alternative_op_eval :
    (∀ (l r : VarExp) (sep : String) (cfg : Option Config) (opts : Options),
      ((∃ e, eval l cfg opts = .error e) ∨ eval l cfg opts = .ok "" →
        eval (.expansion l (some r) sep opAlternative) cfg opts = .ok "")
      ∧ (∀ p, eval l cfg opts = .ok p → p ≠ "" →
          (∀ x e, resolve (parsePath p sep) cfg opts = (x, some e) →
            eval (.expansion l (some r) sep opAlternative) cfg opts = .ok "")
          ∧ (resolve (parsePath p sep) cfg opts = (none, none) →
            eval (.expansion l (some r) sep opAlternative) cfg opts = .ok "")
          ∧ (∀ v, resolve (parsePath p sep) cfg opts = (some v, none) →
            eval (.expansion l (some r) sep opAlternative) cfg opts = eval r cfg opts)))
    ∧ expand "$\x7bpresent:+alt\x7d" "." (some cfgPresent) opts0 = .ok "alt"
    ∧ expand "$\x7bpresent:+alt\x7d" "." (some cfgOpaque) opts0 = .ok "alt"
    ∧ expand "$\x7bpresent:+alt\x7d" "." (some cfgEmpty) opts0 = .ok "" := by
  refine ⟨?_, ?_, ?_, ?_⟩
  · intro l r sep cfg opts
    have hne : opAlternative ≠ opDefault := by decide
    constructor
    · rintro (⟨e, he⟩ | he) <;> simp [eval, he, hne, opAlternative, opDefault]
    · intro p hp hpne
      refine ⟨?_, ?_, ?_⟩
      · intro x e hres; simp [eval, hp, hpne, hres, hne, opAlternative, opDefault]
      · intro hres; simp [eval, hp, hpne, hres, hne, opAlternative, opDefault]
      · intro v hres; simp [eval, hp, hpne, hres, hne, evalOpt, opAlternative, opDefault]
  · unfold expand parseSplice
    rw [lexer_present_alt]
    rfl
  · unfold expand parseSplice
    rw [lexer_present_alt]
    rfl
  · unfold expand parseSplice
    rw [lexer_present_alt]
    rfl

/-- Witness for C4: a resolvable path selects the right side. -/
theorem alternative_op_eval_witness :
    eval (.expansion (.constExp "present") (some (.constExp "alt")) "." opAlternative)
        (some cfgPresent) opts0 =
      eval (.constExp "alt") (some cfgPresent) opts0 :=
  ((alternative_op_eval.1 (.constExp "present") (.constExp "alt") "."
      (some cfgPresent) opts0).2 "present" rfl (by decide)).2.2 (.vStr "x") rfl

/-- C5 counterexample: parsing `"a}"` does not fail — a close brace at
nesting depth zero is not a trigger character for the lexer, so the input
lexes as one literal token and parses successfully to constant text. -/
theorem stray_close_parses :
    parseSplice "a\x7d" "." = .ok (.constExp "a\x7d") := by
  unfold parseSplice
  rw [lexer_abrace]
  rfl

/-- C5 amended: an unmatched close brace at depth zero is treated as
literal text (parsing `"a}"` succeeds with `ConstantText("a}")`); the
parser's close-token failure with only the root frame on the stack exists
but is unreachable from lexer output — fed a close token directly,
`parseVarExp` fails by finalizing the non-variable root frame. -/
theorem stray_close_amended :
    parseSplice "a\x7d" "." = .ok (.constExp "a\x7d")
    ∧ parseVarExp [closeToken] "." =
        .error (.errNew "fatal: processing non-variable state") := by
  constructor
  · unfold parseSplice
    rw [lexer_abrace]
    rfl
  · rfl

/-- C6: when a `$` is followed by a character other than `$` or `{` and is
not the last character, the lexer emits no token for the `$` nor for the
trigger-free literal text before it — scanning continues as if the input
had started at the following character; consequently
`expand("a$b")` returns `"b"`. -/
theorem lexer_discards_lone_dollar :
    (∀ (vc : Nat) (pre : List Char) (c : Char) (post : List Char),
      (∀ x ∈ pre, x ∉ triggers vc) → c ≠ '$' → c ≠ '\x7b' →
      lexLoop (pre ++ '$' :: c :: post) 0 vc = lexLoop (c :: post) 0 vc)
    ∧ ∀ (sep : String) (cfg : Option Config) (opts : Options),
        expand "a$b" sep cfg opts = .ok "b" := by
  constructor
  · exact lex_discard_step
  · intro sep cfg opts
    unfold expand parseSplice
    rw [lexer_adollarb]
    rfl

/-- Witness for C6: the discard step on the concrete input `"a$b"`. -/
theorem lexer_discards_lone_dollar_witness :
    lexLoop ['a', '$', 'b'] 0 0 = lexLoop ['b'] 0 0 :=
  lexer_discards_lone_dollar.1 0 ['a'] 'b' [] (by decide) (by decide) (by decide)

/-- C7: an input containing no `$` expands to itself with no failure, for
every configuration tree, fallback-root list, resolver list and path
separator. -/
theorem expand_plain_identity :
    ∀ (s sep : String) (cfg : Option Config) (opts : Options),
      '$' ∉ s.data → expand s sep cfg opts = .ok s := by
  intro s sep cfg opts h
  cases hs : s.data with
  | nil =>
    have hseq : s = "" := by
      cases s with
      | mk d =>
        have hd : d = [] := by simpa using hs
        rw [hd]
    subst hseq
    have hlex : lexer "" = [] := by simp [lexer, lexLoop]
    unfold expand parseSplice
    rw [hlex]
    rfl
  | cons a l =>
    have hlex : lexer s = [⟨.tokString, s⟩] := by
      unfold lexer
      rw [lexLoop.eq_def]
      have hlen : ¬ (s.data.length = 0) := by rw [hs]; simp
      rw [dif_neg hlen]
      have hfind : (s.data.drop 0).findIdx? (fun x => (triggers 0).contains x) = none := by
        rw [List.drop_zero, List.findIdx?_eq_none_iff]
        intro x hx
        have hxne : x ≠ '$' := fun hxe => h (hxe ▸ hx)
        simp [triggers, hxne]
      rw [hfind]
      have hne : ¬ s.data.isEmpty := by rw [hs]; simp
      simp [strTok, hne]
    unfold expand parseSplice
    rw [hlex]
    rfl

/-- Witness for C7: a dollar-free string expands to itself. -/
theorem expand_plain_identity_witness :
    expand "abc" "." none opts0 = .ok "abc" :=
  expand_plain_identity "abc" "." none opts0 (by decide)

/-- C8: after trigger-free text, a `$$` collapses to a single `$` — the
second `$` is deleted and the scan resumes past the kept `$` without
emitting any token, so the kept `$` cannot start an expansion; concretely
`expand("$$")` returns `"$"` and `expand("$${a}")` returns the literal
`"${a}"` rather than an expansion of `a`. -/
theorem dollar_escape_collapses :
    (∀ (vc : Nat) (pre rest : List Char),
      (∀ x ∈ pre, x ∉ triggers vc) →
      lexLoop (pre ++ '$' :: '$' :: rest) 0 vc =
        lexLoop (pre ++ '$' :: rest) (pre.length + 1) vc)
    ∧ (∀ (sep : String) (cfg : Option Config) (opts : Options),
        expand "$$" sep cfg opts = .ok "$")
    ∧ ∀ (sep : String) (cfg : Option Config) (opts : Options),
        expand "$$\x7ba\x7d" sep cfg opts = .ok "$\x7ba\x7d" := by
  refine ⟨lex_escape_step, ?_, ?_⟩
  · intro sep cfg opts
    unfold expand parseSplice
    rw [lexer_dd]
    rfl
  · intro sep cfg opts
    unfold expand parseSplice
    rw [lexer_dda]
    rfl

/-- Witness for C8: the collapse step on the concrete input `"$$"`. -/
theorem dollar_escape_collapses_witness :
    lexLoop ['$', '$'] 0 0 = lexLoop ['$'] 1 0 :=
  dollar_escape_collapses.1 0 [] [] (by decide)

/-- C9 counterexample: parsing the empty input succeeds and returns a
`splice` with zero pieces — not `ConstantText("")` — so the parser output
does contain a zero-piece concatenation. -/
theorem empty_root_yields_empty_splice :
    parseSplice "" "." = .ok (.splice []) ∧ VarExp.splice [] ≠ .constExp "" := by
  constructor
  · have hlex : lexer "" = [] := by simp [lexer, lexLoop]
    unfold parseSplice
    rw [hlex]
    rfl
  · intro h
    exact VarExp.noConfusion h

/-- C9 amended: parser output may contain zero-piece and one-piece
concatenations — an empty root left-side sequence yields `splice []`
rather than `ConstantText("")`, and a no-operator expansion whose single
left piece is not constant text wraps it in a one-piece `splice`; a
one-piece root collapses to the piece itself and operator-frame sides are
collapsed via `extract` (zero pieces to `ConstantText("")`, one piece to
that piece). -/
theorem parser_collapse_behavior :
    parseSplice "" "." = .ok (.splice [])
    ∧ parseSplice "$\x7b$\x7ba\x7d\x7d" "." =
        .ok (.expansion (.splice [.reference ["a"]]) none "." "")
    ∧ parseSplice "a" "." = .ok (.constExp "a")
    ∧ parseSplice "$\x7bx:d\x7d" "." =
        .ok (.expansion (.constExp "x") (some (.constExp "d")) "." opDefault) := by
  refine ⟨?_, ?_, ?_, ?_⟩
  · have hlex : lexer "" = [] := by simp [lexer, lexLoop]
    unfold parseSplice
    rw [hlex]
    rfl
  · unfold parseSplice
    rw [lexer_nested]
    rfl
  · unfold parseSplice
    rw [lexer_a]
    rfl
  · unfold parseSplice
    rw [lexer_xd]
    rfl

/-- A token emitted by `strToken` is a string token whose text is the
non-empty pending literal. -/
theorem mem_strTok {t : Token} {xs : List Char} (h : t ∈ strTok xs) :
    t = ⟨.tokString, ⟨xs⟩⟩ ∧ xs ≠ [] := by
  unfold strTok at h
  split at h
  · simp at h
  · rename_i hne
    simp at h
    exact ⟨h, by simpa [List.isEmpty_iff] using hne⟩

/-- A token emitted by `strToken` has a non-empty value. -/
theorem strTok_val_nonempty {t : Token} {xs : List Char} (h : t ∈ strTok xs) :
    t.val ≠ "" := by
  obtain ⟨rfl, hne⟩ := mem_strTok h
  simpa [String.ext_iff] using hne

/-- Every string token produced by the scan loop has a non-empty value
(the induction is on an upper bound of the remaining length, which every
non-returning iteration strictly decreases). -/
theorem lexer_strings_nonempty_aux :
    ∀ (n : Nat) (content : List Char) (off vc : Nat), content.length ≤ n →
      ∀ t ∈ lexLoop content off vc, t.typ = .tokString → t.val ≠ "" := by
  intro n
  induction n with
  | zero =>
    intro content off vc hle t ht htyp
    have hz : content.length = 0 := Nat.le_zero.mp hle
    rw [lexLoop.eq_def, dif_pos hz] at ht
    simp at ht
  | succ n IH =>
    intro content off vc hle t ht htyp
    rw [lexLoop.eq_def] at ht
    split at ht
    · simp at ht
    · split at ht
      · exact strTok_val_nonempty ht
      · rename_i hlen hfind
        simp only [] at ht
        split at ht
        · split at ht
          · exact strTok_val_nonempty ht
          · rename_i hoff
            split at ht
            · rcases List.mem_append.mp ht with hl | hr
              · exact strTok_val_nonempty hl
              · rcases List.mem_cons.mp hr with rfl | hrec
                · simp [sepAltToken] at htyp
                · refine IH _ 0 vc ?_ t hrec htyp
                  simp only [List.length_drop]
                  omega
            · split at ht
              · rcases List.mem_append.mp ht with hl | hr
                · exact strTok_val_nonempty hl
                · rcases List.mem_cons.mp hr with rfl | hrec
                  · simp [sepErrToken] at htyp
                  · refine IH _ 0 vc ?_ t hrec htyp
                    simp only [List.length_drop]
                    omega
              · rcases List.mem_append.mp ht with hl | hr
                · exact strTok_val_nonempty hl
                · rcases List.mem_cons.mp hr with rfl | hrec
                  · simp [sepDefToken] at htyp
                  · refine IH _ 0 vc ?_ t hrec htyp
                    simp only [List.length_drop]
                    omega
        · split at ht
          · rcases List.mem_append.mp ht with hl | hr
            · exact strTok_val_nonempty hl
            · rcases List.mem_cons.mp hr with rfl | hrec
              · simp [closeToken] at htyp
              · refine IH _ 0 (vc - 1) ?_ t hrec htyp
                simp only [List.length_drop]
                omega
          · split at ht
            · split at ht
              · exact strTok_val_nonempty ht
              · rename_i hoff
                split at ht
                · refine IH _ _ vc ?_ t ht htyp
                  simp only [List.length_append, List.length_take, List.length_drop]
                  omega
                · split at ht
                  · rcases List.mem_append.mp ht with hl | hr
                    · exact strTok_val_nonempty hl
                    · rcases List.mem_cons.mp hr with rfl | hrec
                      · simp [openToken] at htyp
                      · refine IH _ 0 (vc + 1) ?_ t hrec htyp
                        simp only [List.length_drop]
                        omega
                  · refine IH _ 0 vc ?_ t ht htyp
                    simp only [List.length_drop]
                    omega
            · refine IH _ 0 vc ?_ t ht htyp
              simp only [List.length_drop]
              omega

/-- Every string token the lexer emits has a non-empty value: `strToken`
skips empty strings and the deferred flush only fires on non-empty
remaining text. -/
theorem lexer_strings_nonempty (s : String) :
    ∀ t ∈ lexer s, t.typ = .tokString → t.val ≠ "" :=
  lexer_strings_nonempty_aux s.data.length s.data 0 0 (Nat.le_refl _)

/-- `GoodRefsList` is elementwise `GoodRefs`. -/
theorem goodRefsList_iff (sep : String) (ps : List VarExp) :
    GoodRefsList sep ps ↔ ∀ e ∈ ps, GoodRefs sep e := by
  induction ps with
  | nil => simp [GoodRefsList]
  | cons p q ih => simp [GoodRefsList, ih]

/-- Collapsing good pieces with `extract` preserves `GoodRefs`. -/
theorem extract_good {sep : String} {ps : List VarExp}
    (h : ∀ e ∈ ps, GoodPiece sep e) : GoodRefs sep (extract ps) := by
  match ps with
  | [] => simp [extract, GoodRefs]
  | [p] => exact (h p (by simp)).1
  | p :: q :: rest =>
    show GoodRefs sep (.splice (p :: q :: rest))
    rw [GoodRefs, goodRefsList_iff]
    intro e he
    exact (h e he).1

/-- A successful `finalize` of a frame whose pieces are good yields a good
piece; in particular its `reference` case splits the non-empty literal of
the single constant-text piece. -/
theorem finalize_good {sep : String} {fr : ParseState} {piece : VarExp}
    (hl : ∀ e ∈ fr.left, GoodPiece sep e) (hr : ∀ e ∈ fr.right, GoodPiece sep e)
    (h : finalize fr sep = .ok piece) : GoodPiece sep piece := by
  unfold finalize at h
  split at h
  · simp at h
  · split at h
    · simp at h
    · rename_i hvar hnotempty
      split at h
      · rename_i hst
        split at h
        · rename_i hnil
          rw [hnil] at hnotempty
          simp at hnotempty
        · rename_i str hcons
          injection h with h2
          subst h2
          have hmem : VarExp.constExp str ∈ fr.left := by rw [hcons]; simp
          have hstr : str ≠ "" := (hl _ hmem).2 str rfl
          constructor
          · exact ⟨str, hstr, rfl⟩
          · intro s hs
            exact absurd hs (by simp)
        · injection h with h2
          subst h2
          constructor
          · refine ⟨?_, trivial⟩
            show GoodRefsList sep fr.left
            rw [goodRefsList_iff]
            intro e he
            exact (hl e he).1
          · intro s hs
            exact absurd hs (by simp)
      · injection h with h2
        subst h2
        constructor
        · exact ⟨extract_good hl, extract_good hr⟩
        · intro s hs
          exact absurd hs (by simp)

/-- Appending a good piece to the active side of a good frame keeps both
sides good. -/
theorem appendPiece_good {sep : String} {fr : ParseState} {e : VarExp}
    (hfr : (∀ x ∈ fr.left, GoodPiece sep x) ∧ ∀ x ∈ fr.right, GoodPiece sep x)
    (he : GoodPiece sep e) :
    (∀ x ∈ (appendPiece fr e).left, GoodPiece sep x) ∧
      ∀ x ∈ (appendPiece fr e).right, GoodPiece sep x := by
  unfold appendPiece
  split
  · constructor
    · intro x hx
      rcases List.mem_append.mp hx with hx | hx
      · exact hfr.1 x hx
      · rw [List.mem_singleton.mp hx]
        exact he
    · intro x hx
      exact hfr.2 x hx
  · constructor
    · intro x hx
      exact hfr.1 x hx
    · intro x hx
      rcases List.mem_append.mp hx with hx | hx
      · exact hfr.2 x hx
      · rw [List.mem_singleton.mp hx]
        exact he

/-- One parser step on a good token preserves the stack invariant. -/
theorem parseTok_good {sep : String} {stack : List ParseState} {tok : Token}
    {stack2 : List ParseState}
    (htok : tok.typ = .tokString → tok.val ≠ "")
    (hst : GoodStack sep stack)
    (h : parseTok stack tok sep = .ok stack2) : GoodStack sep stack2 := by
  unfold parseTok at h
  split at h
  · injection h with h2
    subst h2
    intro fr hfr
    rcases List.mem_cons.mp hfr with rfl | hfr
    · exact ⟨by simp, by simp⟩
    · exact hst fr hfr
  · split at h
    · simp at h
    · rename_i top rest
      split at h
      · simp at h
      · rename_i piece hfin
        split at h
        · simp at h
        · rename_i st rest2
          injection h with h2
          subst h2
          have htop := hst top (by simp)
          have hpg : GoodPiece sep piece := finalize_good htop.1 htop.2 hfin
          intro fr hfr
          rcases List.mem_cons.mp hfr with rfl | hfr
          · exact appendPiece_good (hst st (by simp)) hpg
          · exact hst fr (by simp [hfr])
  · split at h
    · simp at h
    · rename_i st rest
      split at h
      · simp at h
      · split at h
        · simp at h
        · injection h with h2
          subst h2
          intro fr hfr
          rcases List.mem_cons.mp hfr with rfl | hfr
          · have hgood := hst st (by simp)
            exact ⟨hgood.1, hgood.2⟩
          · exact hst fr (by simp [hfr])
  · rename_i htyp
    split at h
    · simp at h
    · rename_i st rest
      injection h with h2
      subst h2
      intro fr hfr
      rcases List.mem_cons.mp hfr with rfl | hfr
      · refine appendPiece_good (hst st (by simp)) ⟨trivial, ?_⟩
        intro s hs
        injection hs with hs2
        rw [← hs2]
        exact htok htyp
      · exact hst fr (by simp [hfr])

/-- Running the parser loop on good tokens from a good stack yields a tree
whose references all come from non-empty literals. -/
theorem parseLoop_good {sep : String} :
    ∀ (toks : List Token) (stack : List ParseState) (e : VarExp),
      (∀ t ∈ toks, t.typ = .tokString → t.val ≠ "") →
      GoodStack sep stack →
      parseLoop toks stack sep = .ok e → GoodRefs sep e := by
  intro toks
  induction toks with
  | nil =>
    intro stack e htoks hstack h
    unfold parseLoop at h
    split at h
    · simp at h
    · cases stack with
      | nil => simp at h
      | cons st rest =>
        split at h
        · rename_i hr
          simp at hr
        · rename_i st2 rest2 heq
          injection heq with heq1 heq2
          subst heq1
          split at h
          · rename_i r hr
            injection h with h2
            subst h2
            exact ((hstack st (by simp)).1 r (by rw [hr]; simp)).1
          · injection h with h2
            subst h2
            show GoodRefsList sep st.left
            rw [goodRefsList_iff]
            intro x hx
            exact ((hstack st (by simp)).1 x hx).1
  | cons t ts ih =>
    intro stack e htoks hstack h
    unfold parseLoop at h
    split at h
    · simp at h
    · rename_i stack2 hpt
      exact ih stack2 e (fun u hu => htoks u (by simp [hu]))
        (parseTok_good (htoks t (by simp)) hstack hpt) h

/-- C10: finalizing any expansion frame with an empty left-side sequence
fails with the empty-expansion error — so `"${}"` and `"${:}"` fail to
parse with exactly that error — and for every input on which parsing
succeeds, every `reference` node of the resulting tree was built by
splitting some non-empty left-side literal. -/
theorem empty_expansion_rejected :
    (∀ (fr : ParseState) (sep : String), fr.isvar = true → fr.left = [] →
      finalize fr sep = .error (.errNew "empty expansion"))
    ∧ (∀ sep : String, parseSplice "$\x7b\x7d" sep = .error (.errNew "empty expansion"))
    ∧ (∀ sep : String, parseSplice "$\x7b:\x7d" sep = .error (.errNew "empty expansion"))
    ∧ (∀ (s sep : String) (e : VarExp), parseSplice s sep = .ok e → GoodRefs sep e) := by
  refine ⟨?_, ?_, ?_, ?_⟩
  · intro fr sep hvar hnil
    unfold finalize
    rw [hvar, hnil]
    simp
  · intro sep
    unfold parseSplice
    rw [lexer_open_close]
    rfl
  · intro sep
    unfold parseSplice
    rw [lexer_open_sep_close]
    rfl
  · intro s sep e h
    unfold parseSplice parseVarExp at h
    refine parseLoop_good (lexer s) _ e (lexer_strings_nonempty s) ?_ h
    intro fr hfr
    rw [List.mem_singleton.mp hfr]
    exact ⟨by simp, by simp⟩

/-- Witness for C10: the tree parsed from `"${a}"` has only references
built from non-empty literals. -/
theorem empty_expansion_rejected_witness : GoodRefs "." (.reference ["a"]) :=
  empty_expansion_rejected.2.2.2 "$\x7ba\x7d" "." (.reference ["a"])
    (by unfold parseSplice; rw [lexer_brace_a]; rfl)

end Ucfg
